import Mathlib

/-!
# Verification of the votify retrieval/decryption pipeline

Shallow embedding of the core algorithms of the `votify` repository
(`votify/api/totp.py`, `votify/spotify_api.py`, `votify/api/api.py`,
`votify/downloader.py`, `votify/downloader_audio.py`,
`votify/downloader_video.py`, `votify/utils.py`, `votify/constants.py`)
together with proofs of the specified properties.

Machine integers are modelled as `Nat` with explicit `% 2 ^ w` where the
Python code relies on fixed-width arithmetic; byte strings are `List Nat`
(each element `< 256`); text strings are `List Char`; fallible code
returns `Option`/`Except`; Python floats (timestamps) are modelled as `ℚ`.
-/

/-! ## Byte and digit utilities -/

/-- Big-endian byte decomposition: `k` bytes of `n` (most significant first).
Mirrors Python's `n.to_bytes(k, "big")` (with wraparound modulo `2 ^ (8 * k)`
instead of `OverflowError`). -/
def natToBytesBE (k n : Nat) : List Nat :=
  (List.range k).map (fun i => n / 2 ^ (8 * (k - 1 - i)) % 256)

/-- Big-endian interpretation of a byte list. -/
def bytesToNatBE (l : List Nat) : Nat :=
  l.foldl (fun acc b => acc * 256 + b) 0

/-- Fuel-driven base-`b` big-endian digit expansion (the fuel makes the
definition structurally recursive, hence kernel-reducible). -/
def toDigitsBEAux (b : Nat) : Nat → Nat → List Nat
  | 0, n => [n]
  | fuel + 1, n =>
    if 2 ≤ b ∧ b ≤ n then toDigitsBEAux b fuel (n / b) ++ [n % b] else [n]

/-- Base-`b` big-endian digit expansion (`[n]` when `n < b`, as in Python's
repeated `divmod` encoders; `toDigitsBE b 0 = [0]`). -/
def toDigitsBE (b n : Nat) : List Nat :=
  toDigitsBEAux b n n

/-- Lemma: `toDigitsBEAux` ignores the fuel as long as it is sufficient. -/
lemma toDigitsBEAux_congr (b : Nat) :
    ∀ fuel fuel' n : Nat, n ≤ fuel → n ≤ fuel' →
      toDigitsBEAux b fuel n = toDigitsBEAux b fuel' n := by
  intro fuel
  induction fuel with
  | zero =>
    intro fuel' n hn _
    have : n = 0 := by omega
    subst this
    cases fuel' with
    | zero => rfl
    | succ fuel'' =>
      rw [toDigitsBEAux, toDigitsBEAux, if_neg (by omega)]
  | succ fuel ih =>
    intro fuel' n hn hn'
    cases fuel' with
    | zero =>
      have : n = 0 := by omega
      subst this
      rw [toDigitsBEAux, toDigitsBEAux, if_neg (by omega)]
    | succ fuel'' =>
      rw [toDigitsBEAux, toDigitsBEAux]
      by_cases hc : 2 ≤ b ∧ b ≤ n
      · rw [if_pos hc, if_pos hc]
        have hdiv : n / b < n := Nat.div_lt_self (by omega) (by omega)
        rw [ih fuel'' (n / b) (by omega) (by omega)]
      · rw [if_neg hc, if_neg hc]

/-- The recursive unfolding of `toDigitsBE`. -/
lemma toDigitsBE_unfold (b n : Nat) :
    toDigitsBE b n =
      if 2 ≤ b ∧ b ≤ n then toDigitsBE b (n / b) ++ [n % b] else [n] := by
  rw [toDigitsBE, toDigitsBE]
  cases n with
  | zero => rw [toDigitsBEAux, if_neg (by omega)]
  | succ m =>
    rw [toDigitsBEAux]
    by_cases hc : 2 ≤ b ∧ b ≤ m + 1
    · rw [if_pos hc, if_pos hc]
      have hdiv : (m + 1) / b < m + 1 := Nat.div_lt_self (by omega) (by omega)
      rw [toDigitsBEAux_congr b m ((m + 1) / b) ((m + 1) / b) (by omega) le_rfl]
    · rw [if_neg hc, if_neg hc]

/-- Value of a big-endian digit list in base `b`. -/
def ofDigitsBE (b : Nat) (ds : List Nat) : Nat :=
  ds.foldl (fun acc d => acc * b + d) 0

/-- Decimal string of a natural number, as Python's `str(n)`. -/
def natToDecChars (n : Nat) : List Char :=
  (toDigitsBE 10 n).map Nat.digitChar

/-- Python's `str.zfill(w)`: left-pad with `'0'` up to width `w`. -/
def zfill (w : Nat) (s : List Char) : List Char :=
  List.replicate (w - s.length) '0' ++ s

/-- Split a list into chunks of `k + 1` elements (last chunk may be short). -/
def chunksOf (k : Nat) : List α → List (List α)
  | [] => []
  | c :: rest => (c :: rest).take (k + 1) :: chunksOf k (rest.drop k)
termination_by l => l.length
decreasing_by
  simp only [List.length_drop, List.length_cons]
  omega

/-! ## SHA-1 and HMAC-SHA1

The repository consumes `hashlib.sha1` / `hmac` as library primitives; we
embed the standard algorithms concretely so every definition stays
executable. -/

/-- The 32-bit left rotation. -/
def rotl32 (x k : Nat) : Nat :=
  ((x <<< k) ||| (x >>> (32 - k))) % 2 ^ 32

/-- Bitwise complement on 32-bit words. -/
def not32 (x : Nat) : Nat := x ^^^ 0xFFFFFFFF

/-- One step of the SHA-1 message-schedule extension. -/
def sha1ExtendStep (ws : List Nat) : List Nat :=
  let n := ws.length
  ws ++ [rotl32 (ws.getD (n - 3) 0 ^^^ ws.getD (n - 8) 0 ^^^
                 ws.getD (n - 14) 0 ^^^ ws.getD (n - 16) 0) 1]

/-- Extend the 16 initial words of a chunk to the 80 schedule words. -/
def sha1Schedule (ws : List Nat) : List Nat :=
  (List.range 64).foldl (fun acc _ => sha1ExtendStep acc) ws

/-- One of the 80 SHA-1 compression rounds. -/
def sha1Round (ws : List Nat) (st : Nat × Nat × Nat × Nat × Nat) (i : Nat) :
    Nat × Nat × Nat × Nat × Nat :=
  let (a, b, c, d, e) := st
  let f :=
    if i < 20 then (b &&& c) ||| (not32 b &&& d)
    else if i < 40 then b ^^^ c ^^^ d
    else if i < 60 then (b &&& c) ||| (b &&& d) ||| (c &&& d)
    else b ^^^ c ^^^ d
  let k :=
    if i < 20 then 0x5A827999
    else if i < 40 then 0x6ED9EBA1
    else if i < 60 then 0x8F1BBCDC
    else 0xCA62C1D6
  let temp := (rotl32 a 5 + f + e + k + ws.getD i 0) % 2 ^ 32
  (temp, a, rotl32 b 30, c, d)

/-- Process one 64-byte chunk of a SHA-1 computation. -/
def sha1ProcessChunk (h : Nat × Nat × Nat × Nat × Nat) (chunk : List Nat) :
    Nat × Nat × Nat × Nat × Nat :=
  let (h0, h1, h2, h3, h4) := h
  let ws := sha1Schedule ((chunksOf 3 chunk).map bytesToNatBE)
  let (a, b, c, d, e) := (List.range 80).foldl (sha1Round ws) (h0, h1, h2, h3, h4)
  ((h0 + a) % 2 ^ 32, (h1 + b) % 2 ^ 32, (h2 + c) % 2 ^ 32,
   (h3 + d) % 2 ^ 32, (h4 + e) % 2 ^ 32)

/-- SHA-1 digest (20 bytes) of a byte list. -/
def sha1 (msg : List Nat) : List Nat :=
  let padded := msg ++ [0x80] ++ List.replicate ((119 - msg.length % 64) % 64) 0 ++
    natToBytesBE 8 (8 * msg.length % 2 ^ 64)
  let final := (chunksOf 63 padded).foldl sha1ProcessChunk
    (0x67452301, 0xEFCDAB89, 0x98BADCFE, 0x10325476, 0xC3D2E1F0)
  natToBytesBE 4 final.1 ++ natToBytesBE 4 final.2.1 ++ natToBytesBE 4 final.2.2.1 ++
    natToBytesBE 4 final.2.2.2.1 ++ natToBytesBE 4 final.2.2.2.2

/-- HMAC-SHA1 (RFC 2104, block size 64), as Python's
`hmac.new(key, msg, hashlib.sha1).digest()`. -/
def hmacSha1 (key msg : List Nat) : List Nat :=
  let k0 := if 64 < key.length then sha1 key else key
  let kp := k0 ++ List.replicate (64 - k0.length) 0
  sha1 (kp.map (fun b => b ^^^ 0x5c) ++ sha1 (kp.map (fun b => b ^^^ 0x36) ++ msg))

/-! ## TimeAuthenticator (`votify/api/totp.py`, `votify/api/constants.py`) -/

/-- Constant `TOTP_PERIOD` from `votify/api/constants.py`. -/
def TOTP_PERIOD : Nat := 30

/-- Constant `TOTP_DIGITS` from `votify/api/constants.py`. -/
def TOTP_DIGITS : Nat := 6

namespace Totp

/-- Method `Totp.derive` from `votify/api/totp.py`: each element of the raw
versioned secret is XORed with `(index % 33) + 9` and the results are
joined as decimal digit strings, encoded as ASCII bytes. -/
def derive (ciphertext : List Nat) : List Nat :=
  (ciphertext.enum.map
    (fun p => (toDigitsBE 10 (p.2 ^^^ (p.1 % 33 + 9))).map (fun d => d + 48))).flatten

/-- Method `Totp.generate` from `votify/api/totp.py`: the HMAC-SHA1/dynamic
truncation one-time code for a server timestamp in milliseconds. -/
def generate (secret : List Nat) (timestamp : Nat) : List Char :=
  let counter := timestamp / 1000 / TOTP_PERIOD
  let counterBytes := natToBytesBE 8 counter
  let hm := hmacSha1 secret counterBytes
  let offset := hm.getD (hm.length - 1) 0 &&& 0xF
  let binary :=
    ((hm.getD offset 0 &&& 0x7F) <<< 24) |||
    ((hm.getD (offset + 1) 0 &&& 0xFF) <<< 16) |||
    ((hm.getD (offset + 2) 0 &&& 0xFF) <<< 8) |||
    (hm.getD (offset + 3) 0 &&& 0xFF)
  zfill TOTP_DIGITS (natToDecChars (binary % 10 ^ TOTP_DIGITS))

end Totp

/-- The spec's key material: "each element is transformed as
`value XOR ((index mod 33) + 9)`; the transformed values are concatenated
as decimal digit strings into the actual HMAC key material (not
reinterpreted as raw bytes)". -/
def specTransformSecret (rawSecret : List Nat) : List Nat :=
  (rawSecret.enum.map
    (fun p => (toDigitsBE 10 (p.2 ^^^ (p.1 % 33 + 9))).map (fun d => d + 48))).flatten

/-- Reference HMAC-OTP value, written from the spec's words: counter
`floor(serverTimeMs / 1000 / periodSeconds)` encoded big-endian in 8 bytes,
HMAC-SHA1 over the counter, offset the low nibble of the last digest byte,
the big-endian 4-byte window at that offset with its top bit masked,
reduced mod `10 ^ digits` and zero-padded to the fixed width. -/
def referenceHmacOtp (rawSecret : List Nat) (serverTimeMs : Nat) : List Char :=
  let key := specTransformSecret rawSecret
  let counter := serverTimeMs / 1000 / TOTP_PERIOD
  let counterBytes := natToBytesBE 8 counter
  let hm := hmacSha1 key counterBytes
  let offset := hm.getD (hm.length - 1) 0 % 16
  let window :=
    ((hm.getD offset 0 * 256 + hm.getD (offset + 1) 0) * 256 +
      hm.getD (offset + 2) 0) * 256 + hm.getD (offset + 3) 0
  zfill TOTP_DIGITS (natToDecChars (window % 2 ^ 31 % 10 ^ TOTP_DIGITS))

/-! ### Arithmetic lemmas for the dynamic-truncation equivalence -/

/-- Bitwise-or of disjoint ranges is addition: `c * 2 ^ k ||| b = c * 2 ^ k + b`
whenever `b < 2 ^ k`. -/
lemma lor_eq_add_of_lt (c : Nat) : ∀ k b : Nat, b < 2 ^ k → (c * 2 ^ k) ||| b = c * 2 ^ k + b := by
  intro k
  induction k with
  | zero =>
    intro b hb
    interval_cases b
    simp
  | succ k ih =>
    intro b hb
    have h2 : 2 ^ (k + 1) = 2 * 2 ^ k := by rw [Nat.pow_succ]; ring
    rw [h2] at hb ⊢
    have hb2 : b / 2 < 2 ^ k := by omega
    have hdec : 2 * (b / 2) + (b.testBit 0).toNat = b := by
      have h := Nat.bit_testBit_zero_shiftRight_one b
      rw [Nat.bit_val, Nat.shiftRight_one] at h
      omega
    have hr : c * (2 * 2 ^ k) = 2 * (c * 2 ^ k) := by ring
    have hbit0 : c * (2 * 2 ^ k) = Nat.bit false (c * 2 ^ k) := by
      rw [Nat.bit_val]
      simp only [Bool.toNat_false, Nat.add_zero]
      ring
    calc c * (2 * 2 ^ k) ||| b
        = Nat.bit false (c * 2 ^ k) ||| Nat.bit (b.testBit 0) (b >>> 1) := by
          conv_lhs => rw [hbit0, ← Nat.bit_testBit_zero_shiftRight_one b]
      _ = Nat.bit (false || b.testBit 0) ((c * 2 ^ k) ||| (b >>> 1)) :=
          Nat.lor_bit _ _ _ _
      _ = Nat.bit (b.testBit 0) ((c * 2 ^ k) ||| (b / 2)) := by
          rw [Bool.false_or, Nat.shiftRight_one]
      _ = Nat.bit (b.testBit 0) (c * 2 ^ k + b / 2) := by rw [ih (b / 2) hb2]
      _ = 2 * (c * 2 ^ k + b / 2) + (b.testBit 0).toNat := by rw [Nat.bit_val]
      _ = c * (2 * 2 ^ k) + b := by omega

/-- The source's shift/or dynamic truncation equals the spec's "big-endian
4-byte window with its top bit masked". -/
lemma truncation_eq (w0 w1 w2 w3 : Nat)
    (h0 : w0 < 256) (h1 : w1 < 256) (h2 : w2 < 256) (h3 : w3 < 256) :
    ((w0 &&& 0x7F) <<< 24) ||| ((w1 &&& 0xFF) <<< 16) |||
      ((w2 &&& 0xFF) <<< 8) ||| (w3 &&& 0xFF) =
    (((w0 * 256 + w1) * 256 + w2) * 256 + w3) % 2 ^ 31 := by
  have p8 : (2 : Nat) ^ 8 = 256 := by norm_num
  have p16 : (2 : Nat) ^ 16 = 65536 := by norm_num
  have p24 : (2 : Nat) ^ 24 = 16777216 := by norm_num
  have p31 : (2 : Nat) ^ 31 = 2147483648 := by norm_num
  have e0 : w0 &&& 0x7F = w0 % 128 := by
    have := Nat.and_pow_two_sub_one_eq_mod w0 7
    norm_num at this
    exact this
  have e1 : w1 &&& 0xFF = w1 := by
    have := Nat.and_pow_two_sub_one_eq_mod w1 8
    norm_num at this
    omega
  have e2 : w2 &&& 0xFF = w2 := by
    have := Nat.and_pow_two_sub_one_eq_mod w2 8
    norm_num at this
    omega
  have e3 : w3 &&& 0xFF = w3 := by
    have := Nat.and_pow_two_sub_one_eq_mod w3 8
    norm_num at this
    omega
  rw [e0, e1, e2, e3, Nat.shiftLeft_eq, Nat.shiftLeft_eq, Nat.shiftLeft_eq]
  rw [Nat.lor_assoc, Nat.lor_assoc]
  rw [lor_eq_add_of_lt w2 8 w3 (by omega)]
  rw [lor_eq_add_of_lt w1 16 (w2 * 2 ^ 8 + w3) (by rw [p8, p16]; omega)]
  rw [lor_eq_add_of_lt (w0 % 128) 24 (w1 * 2 ^ 16 + (w2 * 2 ^ 8 + w3))
    (by rw [p8, p16, p24]; omega)]
  rw [p8, p16, p24, p31]
  omega

/-- Every byte produced by `natToBytesBE` is below 256. -/
lemma natToBytesBE_mem_lt {k n b : Nat} (hb : b ∈ natToBytesBE k n) : b < 256 := by
  simp only [natToBytesBE, List.mem_map, List.mem_range] at hb
  obtain ⟨i, -, rfl⟩ := hb
  exact Nat.mod_lt _ (by norm_num)

/-- A `getD` of a list of bytes (default 0) is below 256. -/
lemma getD_lt_of_forall {l : List Nat} (h : ∀ b ∈ l, b < 256) (i : Nat) :
    l.getD i 0 < 256 := by
  rw [List.getD_eq_getElem?_getD]
  cases hq : l[i]? with
  | none => simp
  | some a =>
    have : a ∈ l := List.getElem?_mem hq
    simpa [hq] using h a this

/-- Every byte of a SHA-1 digest is below 256. -/
lemma sha1_mem_lt {msg : List Nat} : ∀ b ∈ sha1 msg, b < 256 := by
  intro b hb
  simp only [sha1, List.mem_append] at hb
  rcases hb with ((((h | h) | h) | h) | h) <;> exact natToBytesBE_mem_lt h

/-- Every `getD` access into an HMAC-SHA1 digest is below 256. -/
lemma hmacSha1_getD_lt (key msg : List Nat) (i : Nat) :
    (hmacSha1 key msg).getD i 0 < 256 := by
  have h : ∀ b ∈ hmacSha1 key msg, b < 256 := by
    intro b hb
    simp only [hmacSha1] at hb
    exact sha1_mem_lt _ hb
  exact getD_lt_of_forall h i

/-- The value `x &&& 0xF` is the low nibble `x % 16`. -/
lemma and_fifteen_eq_mod (x : Nat) : x &&& 0xF = x % 16 := by
  have := Nat.and_pow_two_sub_one_eq_mod x 4
  norm_num at this
  exact this

/-- Digit expansions of numbers below `b ^ k` have at most `k` digits. -/
lemma toDigitsBE_length_le (b : Nat) (hb : 2 ≤ b) :
    ∀ k n : Nat, 1 ≤ k → n < b ^ k → (toDigitsBE b n).length ≤ k := by
  intro k
  induction k with
  | zero => omega
  | succ k ih =>
    intro n _ hn
    rw [toDigitsBE_unfold]
    by_cases hcase : 2 ≤ b ∧ b ≤ n
    · rw [if_pos hcase]
      have hk1 : 1 ≤ k := by
        by_contra hk0
        have : k = 0 := by omega
        subst this
        simp [pow_succ, pow_zero] at hn
        omega
      have hdiv : n / b < b ^ k := by
        rw [Nat.div_lt_iff_lt_mul (by omega : 0 < b)]
        calc n < b ^ (k + 1) := hn
          _ = b ^ k * b := by rw [pow_succ]
      have := ih (n / b) hk1 hdiv
      simp only [List.length_append, List.length_cons, List.length_nil]
      omega
    · rw [if_neg hcase]
      simp

/-- Padding: `zfill` pads to exactly the target width when the input is short enough. -/
lemma zfill_length {w : Nat} {s : List Char} (h : s.length ≤ w) :
    (zfill w s).length = w := by
  simp only [zfill, List.length_append, List.length_replicate]
  omega

/-- C1. For every raw versioned secret and every server timestamp in
milliseconds, the one-time code generator (`Totp.derive` / `Totp.generate`
from `votify/api/totp.py`) returns the reference HMAC-OTP value described
by the spec, and the output is a fixed-width (`TOTP_DIGITS = 6`) decimal
string. -/
theorem totp_generate_eq_reference (secret : List Nat) (serverTimeMs : Nat) :
    Totp.generate (Totp.derive secret) serverTimeMs =
      referenceHmacOtp secret serverTimeMs ∧
    (Totp.generate (Totp.derive secret) serverTimeMs).length = TOTP_DIGITS := by
  have hkey : Totp.derive secret = specTransformSecret secret := rfl
  have hlen : ∀ binary : Nat,
      (zfill TOTP_DIGITS (natToDecChars (binary % 10 ^ TOTP_DIGITS))).length =
        TOTP_DIGITS := by
    intro binary
    apply zfill_length
    simp only [natToDecChars, List.length_map]
    exact toDigitsBE_length_le 10 (by norm_num) TOTP_DIGITS _
      (by norm_num [TOTP_DIGITS]) (Nat.mod_lt _ (by positivity))
  constructor
  · simp only [Totp.generate, referenceHmacOtp, hkey]
    set hm := hmacSha1 (specTransformSecret secret)
      (natToBytesBE 8 (serverTimeMs / 1000 / TOTP_PERIOD)) with hhm
    have hb : ∀ i, hm.getD i 0 < 256 := fun i => hmacSha1_getD_lt _ _ i
    rw [and_fifteen_eq_mod]
    set o := hm.getD (hm.length - 1) 0 % 16 with ho
    congr 1
    rw [truncation_eq (hm.getD o 0) (hm.getD (o + 1) 0) (hm.getD (o + 2) 0)
      (hm.getD (o + 3) 0) (hb o) (hb (o + 1)) (hb (o + 2)) (hb (o + 3))]
  · simp only [Totp.generate]
    exact hlen _

/-! ## SessionManager (`votify/spotify_api.py`, `votify/api/api.py`)

Timestamps (`time.time()`, stored expiry values) are Python floats,
modelled as `ℚ`. -/

/-- Python's `int(x)`: truncation toward zero. -/
def pyInt (q : ℚ) : ℤ := q.num.tdiv q.den

/-- Session-authorization state: the stored expiry value
(`session_auth_expire_time` / `_authorization_expire_time`) and the number
of full authentication handshakes run so far. -/
structure ApiSession where
  expireTime : ℚ
  handshakes : Nat
deriving DecidableEq

/-- Method `SpotifyApi._setup_authorization`: re-runs the full handshake and
atomically replaces the stored expiry. -/
def setupAuthorization (s : ApiSession) (newExpire : ℚ) : ApiSession :=
  { expireTime := newExpire, handshakes := s.handshakes + 1 }

/-- Method `SpotifyApi._refresh_session_auth` (identical logic in
`_refresh_authorization_if_needed` of `votify/api/api.py`): compare
`time.time()` against `int(self.session_auth_expire_time)` and return
unchanged when strictly below, otherwise re-run the handshake. -/
def refreshSessionAuth (s : ApiSession) (now newExpire : ℚ) : ApiSession :=
  if now < ((pyInt s.expireTime : ℤ) : ℚ) then s
  else setupAuthorization s newExpire

/-- Expiry stored by `SpotifyApi._setup_authorization_with_totp`:
`accessTokenExpirationTimestampMs / 1000` (a seconds-scale value). -/
def totpExpiry (accessTokenExpirationTimestampMs : ℚ) : ℚ :=
  accessTokenExpirationTimestampMs / 1000

/-- Expiry stored by `SpotifyApi._setup_authorization_with_device_flow`:
`(int(time.time()) + expires_in) * 1000` (a milliseconds-scale value). -/
def deviceFlowExpiry (now : ℚ) (expiresIn : ℤ) : ℚ :=
  (((pyInt now + expiresIn) * 1000 : ℤ) : ℚ)

/-- Lemma: `pyInt` is the identity on integral rationals. -/
lemma pyInt_intCast (k : ℤ) : pyInt (k : ℚ) = k := by
  simp [pyInt, Rat.num_intCast, Rat.den_intCast, Int.tdiv_one]

/-- C2 counterexample: with stored expiry `3/2` and current time `5/4`,
the current time is strictly below the stored expiry, yet
`_refresh_session_auth` re-runs the authentication handshake (the code
compares against the truncation `int(expiry) = 1`). -/
theorem refresh_before_expiry_reauths :
    (5 / 4 : ℚ) < 3 / 2 ∧
      refreshSessionAuth ⟨3 / 2, 0⟩ (5 / 4) 9 ≠ ⟨3 / 2, 0⟩ := by
  have hpy : pyInt (3 / 2 : ℚ) = 1 := by
    have h1 : (3 / 2 : ℚ).num = 3 := by norm_num
    have h2 : (3 / 2 : ℚ).den = 2 := by norm_num
    simp only [pyInt, h1, h2]
    decide
  constructor
  · norm_num
  · intro hEq
    rw [refreshSessionAuth] at hEq
    simp only [hpy] at hEq
    rw [if_neg (by norm_num)] at hEq
    exact absurd (congrArg ApiSession.handshakes hEq) (by simp [setupAuthorization])

/-- C2 (amended): the session-refresh check treats the integer truncation
`int(stored expiry)` as an exclusive bound: strictly below it the call
proceeds with the session state unchanged, at or above it the full
authentication handshake is re-run.  (For an integer-valued stored expiry
this is exactly the claimed exclusive-expiry behaviour.) -/
theorem refresh_session_auth_truncated_boundary
    (s : ApiSession) (now newExpire : ℚ) :
    (now < ((pyInt s.expireTime : ℤ) : ℚ) →
      refreshSessionAuth s now newExpire = s) ∧
    (((pyInt s.expireTime : ℤ) : ℚ) ≤ now →
      refreshSessionAuth s now newExpire = setupAuthorization s newExpire) := by
  constructor
  · intro h
    simp [refreshSessionAuth, h]
  · intro h
    simp [refreshSessionAuth, not_lt.mpr h]

/-- Witness for C2: at current time 2 and stored expiry 3/2
(`int(3/2) = 1 ≤ 2`), the handshake is re-run. -/
theorem refresh_session_auth_truncated_boundary_witness :
    refreshSessionAuth ⟨3 / 2, 0⟩ 2 9 = setupAuthorization ⟨3 / 2, 0⟩ 9 :=
  (refresh_session_auth_truncated_boundary ⟨3 / 2, 0⟩ 2 9).2 (by
    have hpy : pyInt (3 / 2 : ℚ) = 1 := by
      have h1 : (3 / 2 : ℚ).num = 3 := by norm_num
      have h2 : (3 / 2 : ℚ).den = 2 := by norm_num
      simp only [pyInt, h1, h2]
      decide
    rw [hpy]
    norm_num)

/-- C10. The device-flow path stores a milliseconds-scale expiry
`(int(now) + expires_in) * 1000` while the refresh check compares
`time.time()` (seconds) against it, so after any device-flow
authentication with `expires_in ≥ 0`, every later call at a current time
below `(int(now) + expires_in) * 1000` seconds since the epoch returns
without re-authenticating; the TOTP path instead stores the seconds-scale
`accessTokenExpirationTimestampMs / 1000`. -/
theorem device_flow_expiry_never_refreshes
    (t0 later newExpire : ℚ) (expiresIn : ℤ) (count : Nat)
    (he : 0 ≤ expiresIn)
    (hlater : later < (((pyInt t0 + expiresIn) * 1000 : ℤ) : ℚ)) :
    refreshSessionAuth ⟨deviceFlowExpiry t0 expiresIn, count⟩ later newExpire =
      ⟨deviceFlowExpiry t0 expiresIn, count⟩ ∧
    ∀ ms : ℚ, totpExpiry ms = ms / 1000 := by
  refine ⟨?_, fun _ => rfl⟩
  have h : pyInt (deviceFlowExpiry t0 expiresIn) = (pyInt t0 + expiresIn) * 1000 := by
    rw [deviceFlowExpiry, pyInt_intCast]
  simp only [refreshSessionAuth, h]
  rw [if_pos hlater]

/-- Witness for C10: a device-flow login at `t0 = 100.5` with
`expires_in = 3600` stores expiry `(100 + 3600) * 1000 = 3700000`; a call
at time `10 ^ 6` — about 11.5 days later, far beyond the real token expiry
`t0 + 3600 ≈ 3700.5` seconds — still does not re-authenticate. -/
theorem device_flow_expiry_never_refreshes_witness :
    refreshSessionAuth ⟨deviceFlowExpiry (201 / 2) 3600, 1⟩ 1000000 0 =
      ⟨deviceFlowExpiry (201 / 2) 3600, 1⟩ :=
  (device_flow_expiry_never_refreshes (201 / 2) 1000000 0 3600 1
    (by norm_num)
    (by
      have h1 : (201 / 2 : ℚ).num = 201 := by norm_num
      have h2 : (201 / 2 : ℚ).den = 2 := by norm_num
      have hpy : pyInt (201 / 2 : ℚ) = 100 := by
        simp only [pyInt, h1, h2]
        decide
      rw [hpy]
      norm_num)).1

/-! ## Audio variant selection (`votify/enums.py`, `votify/constants.py`,
`votify/downloader_audio.py`) -/

/-- Enum `AudioQuality` from `votify/enums.py`. -/
inductive AudioQuality
  | VORBIS_HIGH
  | VORBIS_MEDIUM
  | VORBIS_LOW
  | AAC_MEDIUM
  | AAC_HIGH
deriving DecidableEq

/-- Constant `VORBIS_AUDIO_QUALITIES` from `votify/constants.py` (ordered
high → medium → low). -/
def VORBIS_AUDIO_QUALITIES : List AudioQuality :=
  [.VORBIS_HIGH, .VORBIS_MEDIUM, .VORBIS_LOW]

/-- Constant `AAC_AUDIO_QUALITIES` from `votify/constants.py` (ordered
high → medium). -/
def AAC_AUDIO_QUALITIES : List AudioQuality :=
  [.AAC_HIGH, .AAC_MEDIUM]

/-- Constant `AUDIO_QUALITY_X_FORMAT_ID_MAPPING` from `votify/constants.py`. -/
def AUDIO_QUALITY_X_FORMAT_ID_MAPPING : AudioQuality → List Char
  | .VORBIS_HIGH => "OGG_VORBIS_320".toList
  | .VORBIS_MEDIUM => "OGG_VORBIS_160".toList
  | .VORBIS_LOW => "OGG_VORBIS_96".toList
  | .AAC_HIGH => "MP4_256".toList
  | .AAC_MEDIUM => "MP4_128".toList

/-- One entry of the metadata `file` list: the fields of the dict read by
`DownloaderAudio.get_audio_file` / `get_stream_info`. -/
structure AudioFile where
  format : List Char
  fileId : List Char
deriving DecidableEq

/-- The comparison `audio_file["format"] == AUDIO_QUALITY_X_FORMAT_ID_MAPPING[quality]`. -/
def formatMatches (quality : AudioQuality) (f : AudioFile) : Bool :=
  f.format == AUDIO_QUALITY_X_FORMAT_ID_MAPPING quality

/-- The quality ladder chosen by `DownloaderAudio.get_audio_file`
(`AAC_AUDIO_QUALITIES` when the requested tier is AAC, else
`VORBIS_AUDIO_QUALITIES`). -/
def qualityLadder (audioQuality : AudioQuality) : List AudioQuality :=
  if audioQuality ∈ AAC_AUDIO_QUALITIES then AAC_AUDIO_QUALITIES
  else VORBIS_AUDIO_QUALITIES

/-- The suffix of the ladder from the requested tier downward
(`qualities[start_index:]` with `start_index = qualities.index(...)`). -/
def ladderAtOrBelow (audioQuality : AudioQuality) : List AudioQuality :=
  (qualityLadder audioQuality).drop
    ((qualityLadder audioQuality).findIdx (· == audioQuality))

/-- Method `DownloaderAudio.get_audio_file` from `votify/downloader_audio.py`:
walk the ladder from the requested tier downward, returning the first
(tier, file) pair whose format id matches, or `none`. -/
def getAudioFile (audioQuality : AudioQuality) (audioFiles : List AudioFile) :
    Option (AudioQuality × AudioFile) :=
  (ladderAtOrBelow audioQuality).findSome? (fun quality =>
    (audioFiles.find? (formatMatches quality)).map (fun f => (quality, f)))

/-- C3. Audio variant selection walks the ladder downward from the
requested tier: the returned tier lies in the at-or-below suffix of the
ladder (never strictly above the request), every tier tried before it had
no matching file, the returned file is the first file matching the
returned tier, and `none` is returned exactly when no tier at or below the
request matches.  In particular, with available tiers {LOW, MEDIUM} and a
request for HIGH the resolver returns MEDIUM (not LOW, not unavailable). -/
theorem get_audio_file_walks_ladder_downward
    (q : AudioQuality) (files : List AudioFile) :
    (match getAudioFile q files with
     | some (quality, f) =>
         quality ∈ ladderAtOrBelow q ∧
         ∃ pre post, ladderAtOrBelow q = pre ++ quality :: post ∧
           (∀ q' ∈ pre, files.find? (formatMatches q') = none) ∧
           files.find? (formatMatches quality) = some f
     | none => ∀ q' ∈ ladderAtOrBelow q, files.find? (formatMatches q') = none) ∧
    getAudioFile .VORBIS_HIGH
        [⟨"OGG_VORBIS_96".toList, "low-file".toList⟩,
         ⟨"OGG_VORBIS_160".toList, "medium-file".toList⟩] =
      some (.VORBIS_MEDIUM, ⟨"OGG_VORBIS_160".toList, "medium-file".toList⟩) := by
  constructor
  · cases hres : getAudioFile q files with
    | none =>
      intro q' hq'
      rw [getAudioFile, List.findSome?_eq_none_iff] at hres
      have := hres q' hq'
      simpa [Option.map_eq_none'] using this
    | some pair =>
      obtain ⟨quality, f⟩ := pair
      rw [getAudioFile, List.findSome?_eq_some_iff] at hres
      obtain ⟨pre, a, post, hdecomp, ha, hpre⟩ := hres
      rw [Option.map_eq_some'] at ha
      obtain ⟨x, hx, hax⟩ := ha
      obtain ⟨rfl, rfl⟩ : a = quality ∧ x = f := by
        constructor <;> [exact congrArg Prod.fst hax; exact congrArg Prod.snd hax]
      refine ⟨?_, pre, post, hdecomp, ?_, hx⟩
      · rw [hdecomp]
        exact List.mem_append_right _ (List.mem_cons_self _ _)
      · intro q' hq'
        have := hpre q' hq'
        simpa [Option.map_eq_none'] using this
  · rfl

/-! ## Widevine key exchange and CDM session lifecycle
(`votify/downloader.py`, `Downloader.get_widevine_decryption_key`) -/

/-- CDM session lifecycle events. -/
inductive CdmEvent
  | sessionOpened
  | sessionClosed
deriving DecidableEq

/-- One key record returned by `cdm.get_keys` (`kid`/`key` already in hex
form, as the code immediately converts them). -/
structure CdmKey where
  type : List Char
  kid : List Char
  key : List Char

/-- Outcomes of the external CDM capability and of the license network
call during one execution of `get_widevine_decryption_key`. -/
structure CdmBehavior where
  challengeResult : Except (List Char) (List Nat)
  licenseResult : Except (List Char) (List Nat)
  parseResult : Except (List Char) Unit
  keys : List CdmKey

/-- The `try` block body after `cdm_session = self.cdm.open()`: build the
challenge, fetch the license, parse it, and extract the key whose type is
`"CONTENT"` (`StopIteration` when there is none).  The trace records the
session events that occurred. -/
def cdmTryBody (c : CdmBehavior) :
    Except (List Char) (List Char × List Char) × List CdmEvent :=
  let opened := [CdmEvent.sessionOpened]
  match c.challengeResult with
  | .error e => (.error e, opened)
  | .ok _ =>
    match c.licenseResult with
    | .error e => (.error e, opened)
    | .ok _ =>
      match c.parseResult with
      | .error e => (.error e, opened)
      | .ok _ =>
        match c.keys.find? (fun k => k.type == "CONTENT".toList) with
        | none => (.error "StopIteration".toList, opened)
        | some k => (.ok (k.kid, k.key), opened)

/-- The `finally` clause: one `self.cdm.close(cdm_session)` attempt,
whatever the body's outcome. -/
def withSessionClose (r : Except (List Char) (List Char × List Char) × List CdmEvent) :
    Except (List Char) (List Char × List Char) × List CdmEvent :=
  (r.1, r.2 ++ [CdmEvent.sessionClosed])

/-- The `self.cdm is None` fallback: `extract_keys_with_cdrm` followed by
`cmd.split(':')` unpacked into exactly two values; no CDM session exists,
and the `finally` close attempt (referencing the unbound `cdm_session`)
raises and is swallowed by `except: pass`. -/
def cdrmFallback (cdrmResult : Except (List Char) (List Char)) :
    Except (List Char) (List Char × List Char) × List CdmEvent :=
  match cdrmResult with
  | .error e => (.error e, [])
  | .ok cmd =>
    match cmd.splitOn ':' with
    | [keyId, decryptionKey] => (.ok (keyId, decryptionKey), [])
    | _ => (.error "not enough values to unpack".toList, [])

/-- Method `Downloader.get_widevine_decryption_key` from `votify/downloader.py`,
instrumented with the CDM session events it performs. -/
def getWidevineDecryptionKey (cdm : Option CdmBehavior)
    (cdrmResult : Except (List Char) (List Char)) :
    Except (List Char) (List Char × List Char) × List CdmEvent :=
  match cdm with
  | none => cdrmFallback cdrmResult
  | some c => withSessionClose (cdmTryBody c)

/-- C4. Whenever `get_widevine_decryption_key` opens a CDM session (i.e. a
CDM is configured), its event trace is exactly open-then-close — one close
after the open on every exit path (content key returned, license parse
failure, network failure, challenge failure, or no content key), never
zero and never two; without a CDM no session is ever opened or closed. -/
theorem widevine_session_closed_exactly_once
    (cdm : Option CdmBehavior) (cdrmResult : Except (List Char) (List Char)) :
    match cdm with
    | some _ => (getWidevineDecryptionKey cdm cdrmResult).2 =
        [CdmEvent.sessionOpened, CdmEvent.sessionClosed]
    | none => (getWidevineDecryptionKey cdm cdrmResult).2 = [] := by
  cases cdm with
  | none =>
    rcases cdrmResult with e | cmd
    · rfl
    · simp only [getWidevineDecryptionKey, cdrmFallback]
      rcases h : cmd.splitOn ':' with - | ⟨a, - | ⟨b, - | -⟩⟩ <;> rfl
  | some c =>
    obtain ⟨chal, lic, parseRes, keys⟩ := c
    simp only [getWidevineDecryptionKey, withSessionClose, cdmTryBody]
    rcases chal with e | cv
    · rfl
    · rcases lic with e | lv
      · rfl
      · rcases parseRes with e | pv
        · rfl
        · cases h : keys.find? (fun k => k.type == "CONTENT".toList) <;>
            simp only [h] <;> rfl

/-! ## PlayPlay audio decryption
(`votify/downloader_audio.py`, `DownloaderAudio.decrypt_playplay`) -/

/-- Lowercase hex digit characters. -/
def hexDigitChar (d : Nat) : Char :=
  "0123456789abcdef".toList.getD d '?'

/-- Python's `bytes.hex()`: two lowercase hex digits per byte. -/
def bytesToHex (l : List Nat) : List Char :=
  (l.map (fun b => [hexDigitChar (b / 16 % 16), hexDigitChar (b % 16)])).flatten

/-- The fixed service-wide CTR nonce `bytes.fromhex("72e067fbddcbcf77")`. -/
def PLAYPLAY_NONCE : List Nat := [0x72, 0xe0, 0x67, 0xfb, 0xdd, 0xcb, 0xcf, 0x77]

/-- The fixed service-wide CTR initial counter value
`bytes.fromhex("ebe8bc643f630d93")`. -/
def PLAYPLAY_INITIAL_VALUE : List Nat := [0xeb, 0xe8, 0xbc, 0x64, 0x3f, 0x63, 0x0d, 0x93]

/-- The Ogg container magic signature `b"OggS"`. -/
def OGG_MAGIC : List Nat := [0x4f, 0x67, 0x67, 0x53]

/-- AES-CTR keystream: the block cipher applied to
`nonce ++ bigEndian64(initialValue + blockIndex)`, concatenated over the
requested number of blocks (PyCryptodome `AES.MODE_CTR` layout with an
8-byte nonce and an 8-byte initial counter, wrapping modulo `2 ^ 64`). -/
def aesCtrKeystream (cipher : List Nat → List Nat)
    (nonce initialValue : List Nat) (nblocks : Nat) : List Nat :=
  ((List.range nblocks).map (fun i =>
    cipher (nonce ++ natToBytesBE 8 ((bytesToNatBE initialValue + i) % 2 ^ 64)))).flatten

/-- CTR-mode decryption: XOR the ciphertext with the keystream. -/
def ctrDecrypt (cipher : List Nat → List Nat)
    (nonce initialValue data : List Nat) : List Nat :=
  data.zipWith (fun a b => a ^^^ b)
    (aesCtrKeystream cipher nonce initialValue ((data.length + 15) / 16))

/-- Python's `bytes.find`: index of the first occurrence of `pat`, else
`none`. -/
def bytesFind (pat : List Nat) : List Nat → Option Nat
  | [] => if pat <+: ([] : List Nat) then some 0 else none
  | b :: rest =>
    if pat <+: (b :: rest) then some 0
    else (bytesFind pat rest).map (· + 1)

/-- Method `DownloaderAudio.decrypt_playplay` from `votify/downloader_audio.py`:
decrypt the full ciphertext with AES-CTR under the fixed nonce and initial
value, then write the plaintext from the first `b"OggS"` onward, raising
`ValueError` when the signature is absent.  The block cipher (external
`Crypto.Cipher.AES` primitive) is passed as a function of the key. -/
def decryptPlayplay (blockEncrypt : List Nat → List Nat → List Nat)
    (decryptionKey : List Nat) (encryptedData : List Nat) :
    Except (List Char) (List Nat) :=
  let decryptedData := ctrDecrypt (blockEncrypt decryptionKey)
    PLAYPLAY_NONCE PLAYPLAY_INITIAL_VALUE encryptedData
  match bytesFind OGG_MAGIC decryptedData with
  | none => .error "Unable to find ogg header".toList
  | some offset => .ok (decryptedData.drop offset)

/-- A successful `bytesFind` returns the first occurrence. -/
lemma bytesFind_eq_some {pat : List Nat} :
    ∀ {l : List Nat} {i : Nat}, bytesFind pat l = some i →
      pat <+: l.drop i ∧ ∀ j < i, ¬ pat <+: l.drop j := by
  intro l
  induction l with
  | nil =>
    intro i h
    rw [bytesFind] at h
    split at h
    · cases h
      exact ⟨by simpa using ‹pat <+: ([] : List Nat)›, by omega⟩
    · cases h
  | cons b rest ih =>
    intro i h
    rw [bytesFind] at h
    split at h
    · cases h
      exact ⟨by simpa using ‹pat <+: b :: rest›, by omega⟩
    · rw [Option.map_eq_some'] at h
      obtain ⟨i', hi', rfl⟩ := h
      obtain ⟨hpre, hmin⟩ := ih hi'
      refine ⟨by simpa using hpre, ?_⟩
      intro j hj
      match j with
      | 0 => simpa using ‹¬ pat <+: b :: rest›
      | j' + 1 =>
        have := hmin j' (by omega)
        simpa using this

/-- A failed `bytesFind` means the pattern occurs nowhere. -/
lemma bytesFind_eq_none {pat : List Nat} :
    ∀ {l : List Nat}, bytesFind pat l = none → ∀ j, ¬ pat <+: l.drop j := by
  intro l
  induction l with
  | nil =>
    intro h j
    rw [bytesFind] at h
    split at h
    · cases h
    · simpa using ‹¬ pat <+: ([] : List Nat)›
  | cons b rest ih =>
    intro h j
    rw [bytesFind] at h
    split at h
    · cases h
    · rw [Option.map_eq_none'] at h
      match j with
      | 0 => simpa using ‹¬ pat <+: b :: rest›
      | j' + 1 => simpa using ih h j'

/-- C5. `decrypt_playplay` CTR-decrypts the whole ciphertext under the
fixed service-wide nonce `72e067fbddcbcf77` and initial counter
`ebe8bc643f630d93`, then returns exactly the plaintext suffix starting at
the first occurrence of `b"OggS"` (so the output begins with the
signature), and errors exactly when the signature occurs nowhere in the
plaintext. -/
theorem decrypt_playplay_trims_to_first_signature
    (blockEncrypt : List Nat → List Nat → List Nat)
    (decryptionKey encryptedData : List Nat) :
    (bytesToHex PLAYPLAY_NONCE = "72e067fbddcbcf77".toList ∧
     bytesToHex PLAYPLAY_INITIAL_VALUE = "ebe8bc643f630d93".toList) ∧
    (let pt := ctrDecrypt (blockEncrypt decryptionKey)
        PLAYPLAY_NONCE PLAYPLAY_INITIAL_VALUE encryptedData
     match decryptPlayplay blockEncrypt decryptionKey encryptedData with
     | .ok out => ∃ i, out = pt.drop i ∧ OGG_MAGIC <+: pt.drop i ∧
         OGG_MAGIC <+: out ∧ ∀ j < i, ¬ OGG_MAGIC <+: pt.drop j
     | .error _ => ∀ j, ¬ OGG_MAGIC <+: pt.drop j) := by
  refine ⟨⟨rfl, rfl⟩, ?_⟩
  cases hfind : bytesFind OGG_MAGIC (ctrDecrypt (blockEncrypt decryptionKey)
      PLAYPLAY_NONCE PLAYPLAY_INITIAL_VALUE encryptedData) with
  | none =>
    have hnone := bytesFind_eq_none hfind
    simp only [decryptPlayplay, hfind]
    exact hnone
  | some i =>
    obtain ⟨hpre, hmin⟩ := bytesFind_eq_some hfind
    simp only [decryptPlayplay, hfind]
    exact ⟨i, rfl, hpre, hpre, hmin⟩

/-! ## Video segment URL expansion
(`votify/downloader_video.py`, `DownloaderVideo.get_segment_urls`) -/

/-- Python's `s.replace(pat, rep)` (all non-overlapping occurrences, left
to right); arguments are `pat rep s`.  Empty patterns do not occur in this
code base. -/
def pyReplace (pat rep : List Char) : List Char → List Char
  | [] => []
  | c :: rest =>
    if h : pat ≠ [] ∧ pat <+: (c :: rest) then
      rep ++ pyReplace pat rep ((c :: rest).drop pat.length)
    else
      c :: pyReplace pat rep rest
termination_by s => s.length
decreasing_by
  · have hlen : pat.length ≠ 0 := fun hl => h.1 (List.eq_nil_of_length_eq_zero hl)
    simp only [List.length_drop, List.length_cons]
    omega
  · simp only [List.length_cons]
    omega

/-- The `"\x7b\x7bprofile_id\x7d\x7d"` template placeholder. -/
def PROFILE_ID_PLACEHOLDER : List Char := "\x7b\x7bprofile_id\x7d\x7d".toList

/-- The `"\x7b\x7bsegment_timestamp\x7d\x7d"` template placeholder. -/
def SEGMENT_TIMESTAMP_PLACEHOLDER : List Char := "\x7b\x7bsegment_timestamp\x7d\x7d".toList

/-- The `"\x7b\x7bfile_type\x7d\x7d"` template placeholder. -/
def FILE_TYPE_PLACEHOLDER : List Char := "\x7b\x7bfile_type\x7d\x7d".toList

/-- Python's `range(0, stop, step)` for `step > 0`: the multiples of
`step` below `stop`, in ascending order. -/
def pyRangeStep (stop step : Nat) : List Nat :=
  (List.range ((stop + step - 1) / step)).map (· * step)

/-- The timestamps substituted into the segment template:
`range(0, int(end_time_millis / 1000) + 5, segment_length)`. -/
def segmentTimestamps (endTimeMillis segmentLength : Nat) : List Nat :=
  pyRangeStep (endTimeMillis / 1000 + 5) segmentLength

/-- Method `DownloaderVideo.get_segment_urls` from `votify/downloader_video.py`. -/
def getSegmentUrls (baseUrl initializationTemplate segmentTemplate : List Char)
    (endTimeMillis segmentLength profileId : Nat) (fileType : List Char) :
    List (List Char) :=
  let initializationTemplateFormatted :=
    pyReplace FILE_TYPE_PLACEHOLDER fileType
      (pyReplace PROFILE_ID_PLACEHOLDER (natToDecChars profileId)
        initializationTemplate)
  let firstSegment := baseUrl ++ initializationTemplateFormatted
  firstSegment ::
    (segmentTimestamps endTimeMillis segmentLength).map (fun i =>
      baseUrl ++
        pyReplace FILE_TYPE_PLACEHOLDER fileType
          (pyReplace SEGMENT_TIMESTAMP_PLACEHOLDER (natToDecChars i)
            (pyReplace PROFILE_ID_PLACEHOLDER (natToDecChars profileId)
              segmentTemplate)))

/-- Membership in `pyRangeStep`: exactly the multiples of `step` strictly
below `stop`. -/
lemma pyRangeStep_mem_iff {stop step t : Nat} (hstep : 0 < step) :
    t ∈ pyRangeStep stop step ↔ step ∣ t ∧ t < stop := by
  simp only [pyRangeStep, List.mem_map, List.mem_range]
  constructor
  · rintro ⟨i, hi, rfl⟩
    refine ⟨⟨i, by ring⟩, ?_⟩
    have h2 : (i + 1) * step ≤ stop + step - 1 := by
      have := (Nat.le_div_iff_mul_le hstep).mp hi
      exact this
    have h3 : i * step + step ≤ stop + step - 1 := by
      calc i * step + step = (i + 1) * step := by ring
        _ ≤ stop + step - 1 := h2
    omega
  · rintro ⟨⟨i, rfl⟩, hlt⟩
    refine ⟨i, ?_, by ring⟩
    have h3 : (i + 1) * step ≤ stop + step - 1 := by
      have hform : (i + 1) * step = step * i + step := by ring
      omega
    have := (Nat.le_div_iff_mul_le hstep).mpr h3
    omega

/-- Lemma: `pyRangeStep` is strictly ascending. -/
lemma pyRangeStep_pairwise (stop step : Nat) (hstep : 0 < step) :
    (pyRangeStep stop step).Pairwise (· < ·) :=
  List.Pairwise.map _ (fun _ _ hab => (Nat.mul_lt_mul_right hstep).mpr hab)
    (List.pairwise_lt_range _)

/-- C6. `get_segment_urls` returns the single initialization URL (both
templates expanded) followed by the segment URLs whose timestamp
placeholder takes exactly the multiples of `segment_length` strictly below
`int(end_time_millis / 1000) + 5`, in strictly ascending time order. -/
theorem get_segment_urls_structure
    (baseUrl initializationTemplate segmentTemplate : List Char)
    (endTimeMillis segmentLength profileId : Nat) (fileType : List Char)
    (hstep : 0 < segmentLength) :
    getSegmentUrls baseUrl initializationTemplate segmentTemplate
        endTimeMillis segmentLength profileId fileType =
      (baseUrl ++
        pyReplace FILE_TYPE_PLACEHOLDER fileType
          (pyReplace PROFILE_ID_PLACEHOLDER (natToDecChars profileId)
            initializationTemplate)) ::
      (segmentTimestamps endTimeMillis segmentLength).map (fun i =>
        baseUrl ++
          pyReplace FILE_TYPE_PLACEHOLDER fileType
            (pyReplace SEGMENT_TIMESTAMP_PLACEHOLDER (natToDecChars i)
              (pyReplace PROFILE_ID_PLACEHOLDER (natToDecChars profileId)
                segmentTemplate))) ∧
    (∀ t, t ∈ segmentTimestamps endTimeMillis segmentLength ↔
      segmentLength ∣ t ∧ t < endTimeMillis / 1000 + 5) ∧
    (segmentTimestamps endTimeMillis segmentLength).Pairwise (· < ·) :=
  ⟨rfl, fun _ => pyRangeStep_mem_iff hstep, pyRangeStep_pairwise _ _ hstep⟩

/-- Witness for C6 at a concrete input (`end_time_millis = 4000`,
`segment_length = 3`). -/
theorem get_segment_urls_structure_witness :
    (segmentTimestamps 4000 3).Pairwise (· < ·) :=
  (get_segment_urls_structure "b".toList "i".toList "s".toList 4000 3 7
    "mp4".toList (by norm_num)).2.2

/-! ## Transport-error check (`votify/utils.py`, `votify/api/exceptions.py`) -/

/-- The message raised by `_raise_response_exception` in
`votify/utils.py`. -/
def checkResponseMessage (statusCode : Nat) (text : List Char) : List Char :=
  "Request failed with status code ".toList ++ natToDecChars statusCode ++
    ": ".toList ++ text

/-- Function `check_response` from `votify/utils.py`: `raise_for_status` raises for
4xx/5xx statuses, and `_raise_response_exception` then raises the
formatted message; there is no retry. -/
def checkResponse (statusCode : Nat) (text : List Char) : Except (List Char) Unit :=
  if 400 ≤ statusCode ∧ statusCode < 600 then
    .error (checkResponseMessage statusCode text)
  else .ok ()

/-- The message of `VotifyRequestException` from
`votify/api/exceptions.py` (which does carry the endpoint name). -/
def votifyRequestExceptionMessage (endpointName : List Char) (statusCode : Nat)
    (text : List Char) : List Char :=
  endpointName ++ " request failed with status code ".toList ++
    natToDecChars statusCode ++ ": ".toList ++ text

/-- C9 counterexample: for a 404 response with body `"err"` checked by
`check_response` on behalf of the `"Server time"` endpoint, the raised
message does not contain the endpoint name. -/
theorem check_response_message_lacks_endpoint_name :
    checkResponse 404 "err".toList =
      .error (checkResponseMessage 404 "err".toList) ∧
    ¬ ("Server time".toList <:+: checkResponseMessage 404 "err".toList) := by
  constructor
  · rfl
  · decide

/-- C9 (amended). On every non-success (4xx/5xx) response the
transport-error check raises an error whose message contains the status
code and the raw response body; the endpoint name is carried only by the
`VotifyRequestException` message of the api variant, not by
`check_response`. -/
theorem check_response_error_message_contents (statusCode : Nat) (text : List Char)
    (h : 400 ≤ statusCode ∧ statusCode < 600) :
    checkResponse statusCode text = .error (checkResponseMessage statusCode text) ∧
    natToDecChars statusCode <:+: checkResponseMessage statusCode text ∧
    text <:+: checkResponseMessage statusCode text ∧
    ∀ endpointName : List Char,
      endpointName <+: votifyRequestExceptionMessage endpointName statusCode text ∧
      natToDecChars statusCode <:+:
        votifyRequestExceptionMessage endpointName statusCode text ∧
      text <:+: votifyRequestExceptionMessage endpointName statusCode text := by
  refine ⟨by rw [checkResponse, if_pos h], ?_, ?_, ?_⟩
  · exact ⟨"Request failed with status code ".toList, ": ".toList ++ text, by
      simp [checkResponseMessage]⟩
  · exact ⟨"Request failed with status code ".toList ++ natToDecChars statusCode ++
      ": ".toList, [], by simp [checkResponseMessage]⟩
  · intro endpointName
    refine ⟨⟨" request failed with status code ".toList ++ natToDecChars statusCode ++
      ": ".toList ++ text, by simp [votifyRequestExceptionMessage]⟩, ?_, ?_⟩
    · exact ⟨endpointName ++ " request failed with status code ".toList,
        ": ".toList ++ text, by simp [votifyRequestExceptionMessage]⟩
    · exact ⟨endpointName ++ " request failed with status code ".toList ++
        natToDecChars statusCode ++ ": ".toList, [], by
          simp [votifyRequestExceptionMessage]⟩

/-- Witness for C9 at status 404 and body `"err"`. -/
theorem check_response_error_message_contents_witness :
    checkResponse 404 "err".toList =
      .error (checkResponseMessage 404 "err".toList) :=
  (check_response_error_message_contents 404 "err".toList (by norm_num)).1

/-! ## PlayPlay key-wrap key acquisition
(`votify/downloader.py`, `votify/downloader_audio.py`,
`votify/spotify_api.py`) -/

/-- Modelled from the spec: the fixed-shape binary request envelope of the
key-wrap scheme ("protocol version, a constant token, an interactivity
flag, a content-type tag").  The body of
`Downloader.get_playplay_decryption_key` is absent from `src/`
(it raises `NotImplementedError`); only its callers and the license POST
are present. -/
structure PlayPlayRequest where
  protocolVersion : Nat
  token : List Nat
  interactive : Bool
  contentType : Nat

/-- Which key-exchange scheme `DownloaderAudio.get_decryption_key`
invokes. -/
inductive KeyAcquisition
  | widevine (pssh : List Char)
  | playplay (fileId : List Char)
deriving DecidableEq

/-- Method `DownloaderAudio.get_decryption_key` from
`votify/downloader_audio.py`: AAC tiers use the Widevine challenge/license
scheme on the stream's PSSH, every other tier uses the PlayPlay key-wrap
scheme on the stream's file id. -/
def getDecryptionKeyScheme (audioQuality : AudioQuality)
    (fileId pssh : List Char) : KeyAcquisition :=
  if audioQuality ∈ AAC_AUDIO_QUALITIES then .widevine pssh else .playplay fileId

/-- Modelled from the spec: `Downloader.get_playplay_decryption_key`
— "build a fixed-shape binary request envelope … and serialize it; POST it
to a different license endpoint; parse the typed response to extract an
obfuscated key; invoke an external key-unwrap capability with
(file identifier, hex-encoded obfuscated key) and expect a hex-encoded
final key on success; treat an empty result as failure."  The serializer,
license endpoint (`SpotifyApi.get_playplay_license`), response parser and
external unwrap capability are oracles. -/
def getPlayplayDecryptionKey
    (serialize : PlayPlayRequest → List Nat)
    (postLicense : List Nat → Except (List Char) (List Nat))
    (parseResponse : List Nat → Except (List Char) (List Nat))
    (unwrap : List Char → List Char → List Char)
    (envelope : PlayPlayRequest) (fileId : List Char) :
    Except (List Char) (List Char) :=
  match postLicense (serialize envelope) with
  | .error e => .error e
  | .ok response =>
    match parseResponse response with
    | .error e => .error e
    | .ok obfuscatedKey =>
      let key := unwrap fileId (bytesToHex obfuscatedKey)
      if key = [] then .error "playplay key unwrap failed".toList
      else .ok key

/-- C7.  The key-wrap acquisition POSTs the serialized fixed-shape
envelope, extracts the obfuscated key from the typed response, hands
(file id, hex-encoded obfuscated key) to the external unwrap capability,
returns its non-empty result, and fails exactly when the POST fails, the
response cannot be parsed, or the unwrap result is empty; non-AAC audio is
dispatched to this scheme with the stream's file id. -/
theorem playplay_key_exchange_spec
    (serialize : PlayPlayRequest → List Nat)
    (postLicense : List Nat → Except (List Char) (List Nat))
    (parseResponse : List Nat → Except (List Char) (List Nat))
    (unwrap : List Char → List Char → List Char)
    (envelope : PlayPlayRequest) (fileId : List Char) :
    (match getPlayplayDecryptionKey serialize postLicense parseResponse unwrap
        envelope fileId with
     | .ok key =>
         key ≠ [] ∧
         ∃ response obfuscatedKey,
           postLicense (serialize envelope) = .ok response ∧
           parseResponse response = .ok obfuscatedKey ∧
           key = unwrap fileId (bytesToHex obfuscatedKey)
     | .error _ =>
         (∃ e, postLicense (serialize envelope) = .error e) ∨
         (∃ response e, postLicense (serialize envelope) = .ok response ∧
           parseResponse response = .error e) ∨
         (∃ response obfuscatedKey,
           postLicense (serialize envelope) = .ok response ∧
           parseResponse response = .ok obfuscatedKey ∧
           unwrap fileId (bytesToHex obfuscatedKey) = [])) ∧
    ∀ q fid pssh, q ∉ AAC_AUDIO_QUALITIES →
      getDecryptionKeyScheme q fid pssh = .playplay fid := by
  constructor
  · cases hpost : postLicense (serialize envelope) with
    | error e =>
      simp only [getPlayplayDecryptionKey, hpost]
      exact .inl ⟨e, rfl⟩
    | ok response =>
      cases hparse : parseResponse response with
      | error e =>
        simp only [getPlayplayDecryptionKey, hpost, hparse]
        exact .inr (.inl ⟨response, e, rfl, hparse⟩)
      | ok obfuscatedKey =>
        simp only [getPlayplayDecryptionKey, hpost, hparse]
        by_cases hkey : unwrap fileId (bytesToHex obfuscatedKey) = []
        · rw [if_pos hkey]
          exact .inr (.inr ⟨response, obfuscatedKey, rfl, hparse, hkey⟩)
        · rw [if_neg hkey]
          exact ⟨hkey, response, obfuscatedKey, rfl, hparse, rfl⟩
  · intro q fid pssh hq
    rw [getDecryptionKeyScheme, if_neg hq]

/-- Witness for C7: the Vorbis (non-AAC) tiers dispatch to the PlayPlay
scheme with the file id. -/
theorem playplay_key_exchange_spec_witness :
    getDecryptionKeyScheme .VORBIS_LOW "file-id".toList "pssh".toList =
      .playplay "file-id".toList :=
  (playplay_key_exchange_spec (fun _ => []) (fun _ => .ok [1]) (fun _ => .ok [2])
    (fun fid k => fid ++ k) ⟨2, [], true, 0⟩ "file-id".toList).2
    .VORBIS_LOW "file-id".toList "pssh".toList (by decide)

/-! ## Identifier codec (`votify/spotify_api.py` / `votify/api/api.py`,
`media_id_to_gid` / `gid_to_media_id`) -/

/-- Charset `base62.CHARSET_INVERTED` of the Python `base62` library. -/
def CHARSET_INVERTED : List Char :=
  "0123456789ABCDEFGHIJKLMNOPQRSTUVWXYZabcdefghijklmnopqrstuvwxyz".toList

/-- Digit of the inverted base62 charset. -/
def b62Char (d : Nat) : Char := CHARSET_INVERTED.getD d '?'

/-- Value of a base62 character (`none` when invalid, where the Python
library raises `ValueError`). -/
def b62Val (c : Char) : Option Nat := CHARSET_INVERTED.findIdx? (· == c)

/-- Function `base62.encode` with the inverted charset. -/
def b62Encode (n : Nat) : List Char := (toDigitsBE 62 n).map b62Char

/-- Function `base62.decode` with the inverted charset. -/
def b62Decode (s : List Char) : Option Nat := (s.mapM b62Val).map (ofDigitsBE 62)

/-- Python's `hex(n)[2:]`: lowercase hex digits, no leading zeros, `"0"` for 0. -/
def hexEncode (n : Nat) : List Char := (toDigitsBE 16 n).map hexDigitChar

/-- Value of one hex character, upper or lower case (as accepted by
Python's `int(s, 16)`). -/
def hexVal (c : Char) : Option Nat :=
  match "0123456789abcdef".toList.findIdx? (· == c) with
  | some d => some d
  | none => "0123456789ABCDEF".toList.findIdx? (· == c)

/-- Python's `int(s, 16)` on a plain digit string. -/
def hexDecode (s : List Char) : Option Nat :=
  if s = [] then none else (s.mapM hexVal).map (ofDigitsBE 16)

/-- Method `SpotifyApi.media_id_to_gid`:
`hex(base62.decode(media_id, CHARSET_INVERTED))[2:].zfill(32)`. -/
def media_id_to_gid (mediaId : List Char) : Option (List Char) :=
  (b62Decode mediaId).map (fun v => zfill 32 (hexEncode v))

/-- Method `SpotifyApi.gid_to_media_id`:
`base62.encode(int(gid, 16), charset=CHARSET_INVERTED).zfill(22)`. -/
def gid_to_media_id (gid : List Char) : Option (List Char) :=
  (hexDecode gid).map (fun v => zfill 22 (b62Encode v))

/-- Digit expansions are never empty. -/
lemma toDigitsBE_ne_nil (b n : Nat) : toDigitsBE b n ≠ [] := by
  rw [toDigitsBE_unfold]
  split <;> simp

/-- All digits produced by `toDigitsBE` are below the base. -/
lemma toDigitsBE_mem_lt (b : Nat) (hb : 2 ≤ b) :
    ∀ n : Nat, ∀ d ∈ toDigitsBE b n, d < b := by
  intro n
  induction n using Nat.strong_induction_on with
  | _ n ih =>
    intro d hd
    rw [toDigitsBE_unfold] at hd
    by_cases hc : 2 ≤ b ∧ b ≤ n
    · rw [if_pos hc] at hd
      rcases List.mem_append.mp hd with hmem | hmem
      · exact ih (n / b) (Nat.div_lt_self (by omega) (by omega)) d hmem
      · simp only [List.mem_singleton] at hmem
        subst hmem
        exact Nat.mod_lt _ (by omega)
    · rw [if_neg hc] at hd
      simp only [List.mem_singleton] at hd
      subst hd
      omega

/-- Unfolding `ofDigitsBE` over an appended last digit. -/
lemma ofDigitsBE_append_singleton (b : Nat) (ds : List Nat) (d : Nat) :
    ofDigitsBE b (ds ++ [d]) = ofDigitsBE b ds * b + d := by
  simp [ofDigitsBE, List.foldl_append]

/-- Lemma: `ofDigitsBE` inverts `toDigitsBE`. -/
lemma ofDigitsBE_toDigitsBE (b : Nat) (hb : 2 ≤ b) :
    ∀ n : Nat, ofDigitsBE b (toDigitsBE b n) = n := by
  intro n
  induction n using Nat.strong_induction_on with
  | _ n ih =>
    rw [toDigitsBE_unfold]
    by_cases hc : 2 ≤ b ∧ b ≤ n
    · rw [if_pos hc, ofDigitsBE_append_singleton,
        ih (n / b) (Nat.div_lt_self (by omega) (by omega))]
      rw [Nat.mul_comm]
      exact Nat.div_add_mod n b
    · rw [if_neg hc]
      simp [ofDigitsBE]

/-- Leading zero digits do not change the decoded value. -/
lemma ofDigitsBE_replicate_zero (b : Nat) (k : Nat) (ds : List Nat) :
    ofDigitsBE b (List.replicate k 0 ++ ds) = ofDigitsBE b ds := by
  induction k with
  | zero => simp
  | succ k ih =>
    simp only [List.replicate_succ, List.cons_append, ofDigitsBE, List.foldl_cons]
    simpa [ofDigitsBE] using ih

/-- Lemma: `mapM` recovers the digits from their character images. -/
lemma mapM_map_of_forall_some (f : Char → Option Nat) (g : Nat → Char) :
    ∀ ds : List Nat, (∀ d ∈ ds, f (g d) = some d) → (ds.map g).mapM f = some ds := by
  intro ds
  induction ds with
  | nil => intro _; rfl
  | cons d rest ih =>
    intro hall
    rw [List.map_cons, List.mapM_cons, hall d (by simp)]
    rw [ih (fun x hx => hall x (by simp [hx]))]
    rfl

/-- Lemma: `mapM` over a block of `'0'` padding prepended to a decodable tail. -/
lemma mapM_replicate_zero_append (f : Char → Option Nat) (hf : f '0' = some 0)
    (s : List Char) (ds : List Nat) (hs : s.mapM f = some ds) :
    ∀ k : Nat, (List.replicate k '0' ++ s).mapM f = some (List.replicate k 0 ++ ds) := by
  intro k
  induction k with
  | zero => simpa using hs
  | succ k ih =>
    rw [List.replicate_succ, List.cons_append, List.mapM_cons, hf]
    rw [List.replicate_succ, List.cons_append]
    rw [ih]
    rfl

/-- Valid base62 digits round-trip through their characters. -/
lemma b62Val_b62Char : ∀ d : Nat, d < 62 → b62Val (b62Char d) = some d := by decide

/-- Valid hex digits round-trip through their characters. -/
lemma hexVal_hexDigitChar : ∀ d : Nat, d < 16 → hexVal (hexDigitChar d) = some d := by
  decide

/-- Decoding inverts encoding plus `zfill` padding, base62 side. -/
lemma b62Decode_zfill_encode (w v : Nat) :
    b62Decode (zfill w (b62Encode v)) = some v := by
  have hdigits : ∀ d ∈ toDigitsBE 62 v, b62Val (b62Char d) = some d := fun d hd =>
    b62Val_b62Char d (toDigitsBE_mem_lt 62 (by norm_num) v d hd)
  have hmap : (b62Encode v).mapM b62Val = some (toDigitsBE 62 v) :=
    mapM_map_of_forall_some _ _ _ hdigits
  have hzero : b62Val '0' = some 0 := by decide
  rw [zfill, b62Decode,
    mapM_replicate_zero_append b62Val hzero _ _ hmap _]
  rw [Option.map_some', ofDigitsBE_replicate_zero,
    ofDigitsBE_toDigitsBE 62 (by norm_num)]

/-- Decoding inverts encoding plus `zfill` padding, hex side. -/
lemma hexDecode_zfill_encode (w v : Nat) :
    hexDecode (zfill w (hexEncode v)) = some v := by
  have hdigits : ∀ d ∈ toDigitsBE 16 v, hexVal (hexDigitChar d) = some d := fun d hd =>
    hexVal_hexDigitChar d (toDigitsBE_mem_lt 16 (by norm_num) v d hd)
  have hmap : (hexEncode v).mapM hexVal = some (toDigitsBE 16 v) :=
    mapM_map_of_forall_some _ _ _ hdigits
  have hzero : hexVal '0' = some 0 := by decide
  have hne : zfill w (hexEncode v) ≠ [] := by
    rw [zfill]
    intro hcontra
    have h2 := (List.append_eq_nil.mp hcontra).2
    have h3 : hexEncode v ≠ [] := by
      simpa [hexEncode] using toDigitsBE_ne_nil 16 v
    exact h3 h2
  rw [hexDecode, if_neg hne, zfill,
    mapM_replicate_zero_append hexVal hzero _ _ hmap _]
  rw [Option.map_some', ofDigitsBE_replicate_zero,
    ofDigitsBE_toDigitsBE 16 (by norm_num)]

/-- C8.  The identifier codec round-trips: for every compact media
identifier accepted by the base62 decoder,
`media_id_to_gid (gid_to_media_id (media_id_to_gid x)) = media_id_to_gid x`
— i.e. `decode(encode(decode(x))) == decode(x)`. -/
theorem media_id_codec_roundtrip (mediaId : List Char)
    (h : (media_id_to_gid mediaId).isSome) :
    ((media_id_to_gid mediaId).bind fun gid =>
      (gid_to_media_id gid).bind fun mid => media_id_to_gid mid) =
      media_id_to_gid mediaId := by
  obtain ⟨v, hv⟩ : ∃ v, b62Decode mediaId = some v := by
    rw [media_id_to_gid] at h
    cases hd : b62Decode mediaId with
    | none => rw [hd] at h; simp at h
    | some v => exact ⟨v, rfl⟩
  simp only [media_id_to_gid, gid_to_media_id, hv, Option.map_some',
    Option.some_bind]
  rw [hexDecode_zfill_encode]
  simp only [Option.map_some', Option.some_bind]
  rw [b62Decode_zfill_encode]
  simp only [Option.map_some']

/-- Witness for C8 on the 22-character identifier
`"4cOdK2wGLETKBW3PvgPWqT"`. -/
theorem media_id_codec_roundtrip_witness :
    (media_id_to_gid "4cOdK2wGLETKBW3PvgPWqT".toList).isSome = true ∧
    ((media_id_to_gid "4cOdK2wGLETKBW3PvgPWqT".toList).bind fun gid =>
      (gid_to_media_id gid).bind fun mid => media_id_to_gid mid) =
      media_id_to_gid "4cOdK2wGLETKBW3PvgPWqT".toList :=
  ⟨by decide, media_id_codec_roundtrip _ (by decide)⟩

